import Mathlib

/-!
# Verification of the SIL ARC analysis interface (ARCAnalysis.h)

A shallow embedding of the reference-count lifetime analysis declared in
`include/swift/SILOptimizer/Analysis/ARCAnalysis.h`.  The header carries the
inline bodies of the matcher query functions (`isSingleRelease`,
`getSingleReleaseForArgument`, `getReleasesForArgument`,
`isSingleReleaseMatchedToArgument`, `ReleaseTracker`); those are embedded
directly from the source.  The out-of-line bodies (the effect classifier, the
range scanners, the matcher search algorithms, `getFinalReleasesForValue`,
`isARCInertTrapBB`) live in `ARCAnalysis.cpp`, which is not part of the
repository snapshot; those are modelled from the specification, each marked
`Modelled from the spec:` in its doc comment.

Machine-level IR details are abstracted: value handles are natural-number
identifiers, instruction kinds are a representative finite enumeration, the
alias oracle is an arbitrary boolean predicate, and reference-identity roots
and projection coverage are given as resolved fields on the instruction
(the resolver is an external collaborator in the design).
-/

/-! ## Data model -/

/-- A representative enumeration of SIL instruction kinds, covering the
classes the analysis distinguishes: explicit retains and releases, opaque
calls, refcount checks, memory operations, control transfers, traps, and
stack bookkeeping. -/
inductive InstKind where
  | strongRetain
  | retainValue
  | strongRelease
  | releaseValue
  | apply
  | isUnique
  | load
  | store
  | debugValue
  | branch
  | ret
  | unreachable
  | condFail
  | allocStack
  | deallocStack
deriving DecidableEq, Repr

/-- A SIL instruction: a kind, a primary operand value handle, the set of
reference-counted leaves the instruction covers (for releases, as resolved by
the external projection machinery; empty means no projection path could be
formed), and the reference-identity root of its operand as resolved by the
external RCIdentity resolver (`none` when the root is not a tracked value). -/
structure SILInstruction where
  kind : InstKind
  op : Nat
  covers : List Nat
  root : Option Nat
deriving DecidableEq, Repr

/-- The external alias oracle: `isNoAlias a b` answers whether the storage of
the two value handles provably does not overlap.  `false` covers both
"may alias" and "unknown". -/
structure AliasAnalysis where
  isNoAlias : Nat → Nat → Bool

/-- A SIL function argument: an identifier and the reference-counted leaves
of its type, as enumerated by the external projection machinery. -/
structure SILArgument where
  id : Nat
  rcLeaves : List Nat
deriving DecidableEq, Repr

/-- A SIL value handle: either a function argument or some other
definition. -/
inductive SILValue where
  | arg (a : SILArgument)
  | other (n : Nat)
deriving DecidableEq, Repr

/-- `dyn_cast<SILArgument>(V)`: the argument behind a value, if any. -/
def SILValue.asArgument : SILValue → Option SILArgument
  | .arg a => some a
  | .other _ => none

/-- `ReleaseList` from the header: a small ordered sequence of release
instructions matched to one value. -/
abbrev ReleaseList := List SILInstruction

/-- `RetainList` from the header. -/
abbrev RetainList := List SILInstruction

/-- A SIL function as the analysis sees it: its consumed arguments, its two
possible exit blocks (normal return and error exit), and the value handle of
its owned return value. -/
structure SILFunction where
  args : List SILArgument
  returnBlock : List SILInstruction
  throwBlock : List SILInstruction
  returnValue : Nat
deriving Repr

/-- A basic block for the trap-block predicate: its non-terminator
instructions and its terminator. -/
structure SILBasicBlock where
  insts : List SILInstruction
  terminator : SILInstruction
deriving DecidableEq, Repr

/-! ## Effect classifier (modelled from the spec; bodies in
`ARCAnalysis.cpp`, absent from the snapshot) -/

/-- Modelled from the spec: `canNeverDecrementRefCounts` is an
instruction-kind-only allowlist of kinds that can never decrement any
reference count. -/
def canNeverDecrementRefCounts (Inst : SILInstruction) : Bool :=
  match Inst.kind with
  | .strongRetain => true
  | .retainValue => true
  | .isUnique => true
  | .load => true
  | .debugValue => true
  | .branch => true
  | .ret => true
  | .unreachable => true
  | .condFail => true
  | .allocStack => true
  | .deallocStack => true
  | .strongRelease => false
  | .releaseValue => false
  | .apply => false
  | .store => false

/-- Modelled from the spec: `canNeverUseValues` is an instruction-kind-only
allowlist of kinds that can never use a reference-counted value in a way
that requires it to be alive. -/
def canNeverUseValues (User : SILInstruction) : Bool :=
  match User.kind with
  | .allocStack => true
  | .deallocStack => true
  | .condFail => true
  | .branch => true
  | .unreachable => true
  | _ => false

/-- Modelled from the spec: `mayDecrementRefCount`.  True unless the
instruction's kind is provably incapable of decrementing any reference
count: explicit releases decrement only their statically known operand, so
an alias-oracle non-aliasing proof discharges them; opaque calls and stores
may decrement arbitrary counts; all remaining kinds are decrement-free. -/
def mayDecrementRefCount (User : SILInstruction) (Ptr : Nat)
    (AA : AliasAnalysis) : Bool :=
  match User.kind with
  | .strongRelease => !(AA.isNoAlias User.op Ptr)
  | .releaseValue => !(AA.isNoAlias User.op Ptr)
  | .apply => true
  | .store => true
  | _ => false

/-- Modelled from the spec: `mayCheckRefCount`: true for kinds that read a
reference count, i.e. uniqueness checks. -/
def mayCheckRefCount (User : SILInstruction) : Bool :=
  match User.kind with
  | .isUnique => true
  | _ => false

/-- Modelled from the spec: `mayUseValue`.  True unless the instruction
provably cannot observe the value: kinds on the never-use allowlist return
false; kinds that touch only their statically known operand are discharged
by an alias-oracle non-aliasing proof; everything else (opaque calls,
returns, refcount checks on possibly aliasing values) conservatively
returns true. -/
def mayUseValue (User : SILInstruction) (Ptr : Nat)
    (AA : AliasAnalysis) : Bool :=
  match User.kind with
  | .allocStack => false
  | .deallocStack => false
  | .condFail => false
  | .branch => false
  | .unreachable => false
  | .load => !(AA.isNoAlias User.op Ptr)
  | .store => !(AA.isNoAlias User.op Ptr)
  | .strongRelease => !(AA.isNoAlias User.op Ptr)
  | .releaseValue => !(AA.isNoAlias User.op Ptr)
  | .strongRetain => !(AA.isNoAlias User.op Ptr)
  | .retainValue => !(AA.isNoAlias User.op Ptr)
  | .debugValue => !(AA.isNoAlias User.op Ptr)
  | .apply => true
  | .ret => true
  | .isUnique => true

/-! ## Range scanner (modelled from the spec; bodies in `ARCAnalysis.cpp`,
absent from the snapshot).  Iterators into a block are embedded as
indices. -/

/-- First index `i` in `[lo, lo + fuel)` with `p i = true`, scanning
forward. -/
def scanFwd (p : Nat → Bool) (lo : Nat) : Nat → Option Nat
  | 0 => none
  | fuel + 1 => if p lo then some lo else scanFwd p (lo + 1) fuel

/-- Last index `i` in `[lo, lo + fuel)` with `p i = true`, scanning
backward from the end of the range. -/
def scanRev (p : Nat → Bool) (lo : Nat) : Nat → Option Nat
  | 0 => none
  | fuel + 1 => if p (lo + fuel) then some (lo + fuel) else scanRev p lo fuel

/-- Whether instruction `i` of block `BB` may use `Op` under oracle `AA`;
false past the end of the block. -/
def instMayUseAt (Op : Nat) (BB : List SILInstruction) (AA : AliasAnalysis)
    (i : Nat) : Bool :=
  match BB.get? i with
  | some User => mayUseValue User Op AA
  | none => false

/-- Whether instruction `i` of block `BB` may decrement or check the
reference count of `Op` under oracle `AA`; false past the end. -/
def instMayDecrementOrCheckAt (Op : Nat) (BB : List SILInstruction)
    (AA : AliasAnalysis) (i : Nat) : Bool :=
  match BB.get? i with
  | some User => mayDecrementRefCount User Op AA || mayCheckRefCount User
  | none => false

/-- Modelled from the spec: `valueHasARCUsesInInstructionRange`.  Over
`[Start, End)` return the index of the first instruction that may use `Op`,
else `none`. -/
def valueHasARCUsesInInstructionRange (Op : Nat) (BB : List SILInstruction)
    (Start stop : Nat) (AA : AliasAnalysis) : Option Nat :=
  scanFwd (instMayUseAt Op BB AA) Start (stop - Start)

/-- Modelled from the spec: `valueHasARCUsesInReverseInstructionRange`.
Over `[Start, End)` return the index of the last instruction that may use
`Op`, else `none`. -/
def valueHasARCUsesInReverseInstructionRange (Op : Nat)
    (BB : List SILInstruction) (Start stop : Nat) (AA : AliasAnalysis) :
    Option Nat :=
  scanRev (instMayUseAt Op BB AA) Start (stop - Start)

/-- Modelled from the spec: `valueHasARCDecrementOrCheckInInstructionRange`.
Over the range `(Start, End]` — Start exclusive, End inclusive — return the
index of the first instruction that may decrement or check `Op`, else
`none`. -/
def valueHasARCDecrementOrCheckInInstructionRange (Op : Nat)
    (BB : List SILInstruction) (Start stop : Nat) (AA : AliasAnalysis) :
    Option Nat :=
  scanFwd (instMayDecrementOrCheckAt Op BB AA) (Start + 1) (stop - Start)

/-! ## Consumed-argument release matcher -/

/-- `llvm::SmallMapVector<SILArgument *, ReleaseList, 8>` embedded as an
insertion-ordered association list. -/
abbrev ArgInstMapT := List (SILArgument × ReleaseList)

/-- `ArgInstMap.find(Arg)`: the release list recorded for an argument. -/
def lookupArg : ArgInstMapT → SILArgument → Option ReleaseList
  | [], _ => none
  | (b, l) :: rest, a => if b = a then some l else lookupArg rest a

/-- Whether an instruction is an explicit release. -/
def isReleaseInstruction (I : SILInstruction) : Bool :=
  match I.kind with
  | .strongRelease => true
  | .releaseValue => true
  | _ => false

/-- Whether an instruction is an explicit retain. -/
def isRetainInstruction (I : SILInstruction) : Bool :=
  match I.kind with
  | .strongRetain => true
  | .retainValue => true
  | _ => false

/-- Append a release to an argument's list, creating a singleton entry in
insertion order when the argument has none (the `MapVector` behavior). -/
def addRelease : ArgInstMapT → SILArgument → SILInstruction → ArgInstMapT
  | [], a, i => [(a, [i])]
  | (b, l) :: rest, a, i =>
      if b = a then (b, l ++ [i]) :: rest else (b, l) :: addRelease rest a i

/-- Modelled from the spec: `isRedundantRelease` (body in `ARCAnalysis.cpp`,
absent from the snapshot).  True when the releases already collected reach
part or all of the newly released value — the new release's covered leaves
overlap an already recorded release's — and bails out to true when a
projection path could not be formed for a recorded release (empty cover). -/
def isRedundantRelease (Insts : ReleaseList) (I : SILInstruction) : Bool :=
  Insts.any (fun J => J.covers.isEmpty ||
    I.covers.any (fun leaf => J.covers.contains leaf))

/-- Modelled from the spec: `releaseArgument` (body in `ARCAnalysis.cpp`,
absent from the snapshot).  True when the collected releases cover every
reference-counted leaf of the argument's type. -/
def releaseArgument (Insts : ReleaseList) (Argument : SILArgument) : Bool :=
  Argument.rcLeaves.all (fun leaf =>
    Insts.any (fun I => I.covers.contains leaf))

/-- The tracked argument a release matches, resolved through the external
reference-identity root recorded on the instruction. -/
def trackedArgFor (args : List SILArgument) (I : SILInstruction) :
    Option SILArgument :=
  match I.root with
  | none => none
  | some r => args.find? (fun a => a.id = r)

/-- One step of release collection: record a non-redundant release whose
reference-identity root is a tracked consumed argument. -/
def collectReleaseStep (args : List SILArgument) (m : ArgInstMapT)
    (I : SILInstruction) : ArgInstMapT :=
  if isReleaseInstruction I then
    match trackedArgFor args I with
    | some a =>
        if isRedundantRelease ((lookupArg m a).getD []) I then m
        else addRelease m a I
    | none => m
  else m

/-- Modelled from the spec: `collectMatchingReleases` (body in
`ARCAnalysis.cpp`, absent from the snapshot).  Walk the block and record
every matching release, keyed by argument. -/
def collectMatchingReleases (args : List SILArgument)
    (BB : List SILInstruction) (m : ArgInstMapT) : ArgInstMapT :=
  BB.foldl (collectReleaseStep args) m

/-- Modelled from the spec: `processMatchingReleases` (body in
`ARCAnalysis.cpp`, absent from the snapshot).  Keep an argument's entry only
if its accumulated releases cover every reference-counted leaf of its type;
otherwise clear the entry entirely. -/
def processMatchingReleases (m : ArgInstMapT) : ArgInstMapT :=
  m.filter (fun e => releaseArgument e.2 e.1)

/-- `ConsumedArgToEpilogueReleaseMatcher::ExitKind`. -/
inductive ExitKind where
  | Return
  | Throw
deriving DecidableEq, Repr

/-- The exit block of the requested kind. -/
def SILFunction.exitBlock (F : SILFunction) : ExitKind → List SILInstruction
  | .Return => F.returnBlock
  | .Throw => F.throwBlock

/-- The state of `ConsumedArgToEpilogueReleaseMatcher`: the argument-to-
release-list map and the has-block-without-match flag. -/
structure ConsumedArgToEpilogueReleaseMatcher where
  ArgInstMap : ArgInstMapT
  HasBlock : Bool
deriving Repr

/-- Map a fallible function over a list, failing when any element fails
(the `Option` sequencing used below). -/
def mapOption (f : α → Option β) : List α → Option (List β)
  | [] => some []
  | a :: rest =>
    match f a, mapOption f rest with
    | some b, some bs => some (b :: bs)
    | _, _ => none

namespace ConsumedArgToEpilogueReleaseMatcher

/-- Modelled from the spec: `findMatchingReleases` (body in
`ARCAnalysis.cpp`, absent from the snapshot): collect the releases of the
provided block into the current map, then validate full coverage. -/
def findMatchingReleases (F : SILFunction) (BB : List SILInstruction)
    (m : ConsumedArgToEpilogueReleaseMatcher) :
    ConsumedArgToEpilogueReleaseMatcher :=
  { m with
    ArgInstMap := processMatchingReleases
      (collectMatchingReleases F.args BB m.ArgInstMap) }

/-- Modelled from the spec: `recompute` (body in `ARCAnalysis.cpp`, absent
from the snapshot): discard all state, then find matching releases in the
exit block of the requested kind. -/
def recompute (F : SILFunction) (Kind : ExitKind)
    (_m : ConsumedArgToEpilogueReleaseMatcher) :
    ConsumedArgToEpilogueReleaseMatcher :=
  findMatchingReleases F (F.exitBlock Kind) ⟨[], false⟩

/-- The constructor: find matching releases in the exit block of the
function. -/
def construct (F : SILFunction) (Kind : ExitKind) :
    ConsumedArgToEpilogueReleaseMatcher :=
  recompute F Kind ⟨[], false⟩

/-- `isSingleRelease` from the header.  The source asserts that the argument
has an entry ("Failed to get release list for argument") and then compares
the entry's size with 1; the assertion failure (debug abort / out-of-bounds
iterator dereference in release builds) is embedded as `none`. -/
def isSingleRelease (m : ConsumedArgToEpilogueReleaseMatcher)
    (Arg : SILArgument) : Option Bool :=
  match lookupArg m.ArgInstMap Arg with
  | none => none
  | some l => some (l.length = 1)

/-- `getSingleReleaseForArgument(SILArgument *)` from the header: `nullptr`
(embedded as `none`) when the argument has no entry or the entry is not a
single release; otherwise the first recorded release. -/
def getSingleReleaseForArgument (m : ConsumedArgToEpilogueReleaseMatcher)
    (Arg : SILArgument) : Option SILInstruction :=
  match lookupArg m.ArgInstMap Arg with
  | none => none
  | some l => if l.length = 1 then l.head? else none

/-- `getSingleReleaseForArgument(SILValue)` from the header: `nullptr` when
the value is not a function argument, otherwise the argument overload. -/
def getSingleReleaseForArgumentValue (m : ConsumedArgToEpilogueReleaseMatcher)
    (V : SILValue) : Option SILInstruction :=
  match V.asArgument with
  | none => none
  | some Arg => getSingleReleaseForArgument m Arg

/-- `getReleasesForArgument(SILArgument *)` from the header: the recorded
release list, or the empty list when the argument has no entry. -/
def getReleasesForArgument (m : ConsumedArgToEpilogueReleaseMatcher)
    (Arg : SILArgument) : ReleaseList :=
  match lookupArg m.ArgInstMap Arg with
  | none => []
  | some l => l

/-- The predicate `isSingleReleaseMatchedToArgument` applies to each map
entry: entries with more than one release are rejected, otherwise the
entry's first release is compared against `Inst`.  The source dereferences
`P.second.begin()` without a size check; the dereference of an empty list
(undefined behavior) is embedded as `none`. -/
def singleReleaseEntryPred (Inst : SILInstruction)
    (e : SILArgument × ReleaseList) : Option Bool :=
  if e.2.length > 1 then some false
  else e.2.head?.map (fun J => J = Inst)

/-- `isSingleReleaseMatchedToArgument` from the header: whether some entry's
unique release is `Inst` (`count_if` used as a boolean); `none` when some
entry's predicate hits the empty-list dereference. -/
def isSingleReleaseMatchedToArgument
    (m : ConsumedArgToEpilogueReleaseMatcher) (Inst : SILInstruction) :
    Option Bool :=
  (mapOption (singleReleaseEntryPred Inst) m.ArgInstMap).map
    (fun bs => bs.any id)

end ConsumedArgToEpilogueReleaseMatcher

/-- The states of `ConsumedArgToEpilogueReleaseMatcher` reachable through
its public operations: construction, `findMatchingReleases`, and
`recompute`. -/
inductive ReachableMatcher (F : SILFunction) (Kind : ExitKind) :
    ConsumedArgToEpilogueReleaseMatcher → Prop
  | construct :
      ReachableMatcher F Kind
        (ConsumedArgToEpilogueReleaseMatcher.construct F Kind)
  | find (BB : List SILInstruction) (m : ConsumedArgToEpilogueReleaseMatcher)
      (h : ReachableMatcher F Kind m) :
      ReachableMatcher F Kind
        (ConsumedArgToEpilogueReleaseMatcher.findMatchingReleases F BB m)
  | recompute (m : ConsumedArgToEpilogueReleaseMatcher)
      (h : ReachableMatcher F Kind m) :
      ReachableMatcher F Kind
        (ConsumedArgToEpilogueReleaseMatcher.recompute F Kind m)

/-- All release lists stored in a map are non-empty. -/
def allEntriesNonEmpty (m : ArgInstMapT) : Prop :=
  ∀ e ∈ m, e.2 ≠ []

/-! ## Consumed-result retain matcher -/

/-- `ConsumedResultToEpilogueRetainMatcher::FindRetainKind`. -/
inductive FindRetainKind where
  | None
  | Found
  | Recursion
  | Blocked
deriving DecidableEq, Repr

/-- Modelled from the spec: the backward scan of
`findMatchingRetainsInBasicBlock` (body in `ARCAnalysis.cpp`, absent from
the snapshot), applied to the block's instructions from last to first: an
epilogue retain reference-identical to the searched value ends the search
(`Found`); a self-recursive call producing the value is recorded and the
search continues past it (`Recursion`); an instruction that may decrement
the value blocks the path (`Blocked`, nothing recorded). -/
def epilogueRetainScan (V : Nat) (AA : AliasAnalysis) :
    List SILInstruction → RetainList
  | [] => []
  | I :: rest =>
    if isRetainInstruction I && I.root == some V then [I]
    else if I.kind == InstKind.apply && I.root == some V then
      I :: epilogueRetainScan V AA rest
    else if mayDecrementRefCount I V AA then []
    else epilogueRetainScan V AA rest

/-- The state of `ConsumedResultToEpilogueRetainMatcher`: the accumulated
epilogue retains. -/
structure ConsumedResultToEpilogueRetainMatcher where
  EpilogueRetainInsts : RetainList
deriving Repr

namespace ConsumedResultToEpilogueRetainMatcher

/-- The search over the function's return block for retains balancing the
owned return value, scanning backward from the block's end. -/
def computeRetains (F : SILFunction) (AA : AliasAnalysis) : RetainList :=
  epilogueRetainScan F.returnValue AA F.returnBlock.reverse

/-- Modelled from the spec: `recompute` (body in `ARCAnalysis.cpp`, absent
from the snapshot): discard and rebuild all state. -/
def recompute (F : SILFunction) (AA : AliasAnalysis)
    (_m : ConsumedResultToEpilogueRetainMatcher) :
    ConsumedResultToEpilogueRetainMatcher :=
  ⟨computeRetains F AA⟩

/-- `getEpilogueRetains` from the header. -/
def getEpilogueRetains (m : ConsumedResultToEpilogueRetainMatcher) :
    RetainList :=
  m.EpilogueRetainInsts

end ConsumedResultToEpilogueRetainMatcher

/-! ## Release tracker and final-release collector -/

/-- Insert into an insertion-ordered set (`llvm::SmallSetVector`). -/
def insertUnique (l : List SILInstruction) (I : SILInstruction) :
    List SILInstruction :=
  if l.contains I then l else l ++ [I]

/-- `ReleaseTracker` from the header: the tracked acceptable users, the
subset judged to be final releases, and the caller-supplied acceptable-user
predicate. -/
structure ReleaseTracker where
  TrackedUsers : List SILInstruction
  FinalReleases : List SILInstruction
  AcceptableUserQuery : SILInstruction → Bool

namespace ReleaseTracker

/-- The constructor: empty sets and the supplied predicate. -/
def construct (q : SILInstruction → Bool) : ReleaseTracker := ⟨[], [], q⟩

/-- `trackLastRelease` from the header. -/
def trackLastRelease (m : ReleaseTracker) (Inst : SILInstruction) :
    ReleaseTracker :=
  { m with FinalReleases := insertUnique m.FinalReleases Inst }

/-- `isUserAcceptable` from the header. -/
def isUserAcceptable (m : ReleaseTracker) (User : SILInstruction) : Bool :=
  m.AcceptableUserQuery User

/-- `trackUser` from the header. -/
def trackUser (m : ReleaseTracker) (User : SILInstruction) : ReleaseTracker :=
  { m with TrackedUsers := insertUnique m.TrackedUsers User }

/-- `getTrackedUsers` from the header. -/
def getTrackedUsers (m : ReleaseTracker) : List SILInstruction :=
  m.TrackedUsers

/-- `getFinalReleases` from the header. -/
def getFinalReleases (m : ReleaseTracker) : List SILInstruction :=
  m.FinalReleases

end ReleaseTracker

/-- The control flow a value sees, as the set of instruction paths from the
value's definition to each function exit (the walk itself is driven by the
control-flow graph, an external read-only collaborator). -/
structure ValuePaths where
  paths : List (List SILInstruction)

/-- Whether an instruction is a user of the value `V`, as resolved by the
external reference-identity resolver. -/
def usesValue (V : Nat) (I : SILInstruction) : Bool :=
  I.root == some V

/-- The last release of `V` on one path, if any. -/
def lastReleaseOnPath (V : Nat) (path : List SILInstruction) :
    Option SILInstruction :=
  (path.filter (fun I => isReleaseInstruction I && I.root == some V)).getLast?

/-- A valid post-dominating final release set for `V`: every user of `V` on
a definition-to-exit path is acceptable to the tracker, every member is a
release of `V`, and every path passes through exactly one member. -/
def validFinalReleaseSet (V : Nat) (vp : ValuePaths) (Tracker : ReleaseTracker)
    (S : List SILInstruction) : Prop :=
  (∀ U ∈ vp.paths.flatten, usesValue V U = true →
    Tracker.isUserAcceptable U = true) ∧
  (∀ I ∈ S, isReleaseInstruction I = true ∧ I.root = some V) ∧
  (∀ p ∈ vp.paths, (p.filter (fun I => S.contains I)).length = 1)

/-- Modelled from the spec: `getFinalReleasesForValue` (body in
`ARCAnalysis.cpp`, absent from the snapshot).  Collect the value's users
along every definition-to-exit path; fail if any is unacceptable.  Take the
last release of the value on each path as the candidate final set; fail if
some path has none.  Fail unless every path passes through exactly one
candidate (the post-dominance consistency check).  On success, record the
users and the final releases in the tracker and return true; on failure
return false with the tracker unchanged (its contents are not meaningful to
the caller). -/
def getFinalReleasesForValue (V : Nat) (vp : ValuePaths)
    (Tracker : ReleaseTracker) : Bool × ReleaseTracker :=
  if (vp.paths.flatten.filter (usesValue V)).all
      (fun U => Tracker.isUserAcceptable U) then
    match mapOption (lastReleaseOnPath V) vp.paths with
    | none => (false, Tracker)
    | some finals =>
      if vp.paths.all
          (fun p => (p.filter (fun I => finals.contains I)).length = 1) then
        (true, finals.foldl ReleaseTracker.trackLastRelease
          ((vp.paths.flatten.filter (usesValue V)).foldl
            ReleaseTracker.trackUser Tracker))
      else (false, Tracker)
  else (false, Tracker)

/-! ## Trap-block predicate -/

/-- Whether an instruction is a trap/unreachable-style terminator. -/
def isTrapTerminator (I : SILInstruction) : Bool :=
  I.kind == InstKind.unreachable

/-- Modelled from the spec: `isARCInertTrapBB` (body in `ARCAnalysis.cpp`,
absent from the snapshot): true if the block consists solely of a
trap/unreachable-style terminator and instructions with no
reference-count-relevant side effects, i.e. every instruction in it
satisfies `canNeverUseValues` and `canNeverDecrementRefCounts`. -/
def isARCInertTrapBB (BB : SILBasicBlock) : Bool :=
  isTrapTerminator BB.terminator &&
    BB.insts.all (fun I => canNeverUseValues I && canNeverDecrementRefCounts I)

/-! ## Theorems -/

/-- On the decrement-free allowlist, `mayDecrementRefCount` is false for
every value and oracle. -/
theorem mayDecrement_false_of_canNeverDecrement (Inst : SILInstruction)
    (Ptr : Nat) (AA : AliasAnalysis)
    (h : canNeverDecrementRefCounts Inst = true) :
    mayDecrementRefCount Inst Ptr AA = false := by
  cases hk : Inst.kind <;>
    simp [canNeverDecrementRefCounts, hk] at h ⊢ <;>
    simp [mayDecrementRefCount, hk]

/-- On the never-use allowlist, `mayUseValue` is false for every value and
oracle. -/
theorem mayUse_false_of_canNeverUse (Inst : SILInstruction)
    (Ptr : Nat) (AA : AliasAnalysis)
    (h : canNeverUseValues Inst = true) :
    mayUseValue Inst Ptr AA = false := by
  cases hk : Inst.kind <;>
    simp [canNeverUseValues, hk] at h ⊢ <;>
    simp [mayUseValue, hk]

/-- C1: every instruction on the `canNeverDecrementRefCounts` allowlist has
`mayDecrementRefCount` false for every value and every alias oracle, and
every instruction on the `canNeverUseValues` allowlist has `mayUseValue`
false for every value and every alias oracle. -/
theorem classifier_allowlist_sound (Inst : SILInstruction) (Ptr : Nat)
    (AA : AliasAnalysis) :
    (canNeverDecrementRefCounts Inst = true →
      mayDecrementRefCount Inst Ptr AA = false) ∧
    (canNeverUseValues Inst = true →
      mayUseValue Inst Ptr AA = false) :=
  ⟨mayDecrement_false_of_canNeverDecrement Inst Ptr AA,
   mayUse_false_of_canNeverUse Inst Ptr AA⟩

/-- Witness for C1 at a concrete branch instruction: both allowlist
hypotheses hold and both consequences are discharged by the theorem. -/
theorem classifier_allowlist_sound_witness :
    mayDecrementRefCount ⟨InstKind.branch, 0, [], none⟩ 5
        ⟨fun _ _ => false⟩ = false ∧
    mayUseValue ⟨InstKind.branch, 0, [], none⟩ 5
        ⟨fun _ _ => false⟩ = false :=
  ⟨(classifier_allowlist_sound ⟨InstKind.branch, 0, [], none⟩ 5
      ⟨fun _ _ => false⟩).1 (by decide),
   (classifier_allowlist_sound ⟨InstKind.branch, 0, [], none⟩ 5
      ⟨fun _ _ => false⟩).2 (by decide)⟩

theorem scanFwd_some (p : Nat → Bool) :
    ∀ fuel lo i, scanFwd p lo fuel = some i →
      lo ≤ i ∧ i < lo + fuel ∧ p i = true ∧
        ∀ j, lo ≤ j → j < i → p j = false := by
  intro fuel
  induction fuel with
  | zero => intro lo i h; simp [scanFwd] at h
  | succ n ih =>
    intro lo i h
    rw [scanFwd] at h
    by_cases hp : p lo = true
    · rw [if_pos hp] at h
      obtain rfl : lo = i := by simpa using h
      exact ⟨Nat.le_refl _, by omega, hp, fun j h1 h2 => by omega⟩
    · rw [if_neg hp] at h
      obtain ⟨h1, h2, h3, h4⟩ := ih (lo + 1) i h
      refine ⟨by omega, by omega, h3, fun j hj1 hj2 => ?_⟩
      rcases Nat.eq_or_lt_of_le hj1 with rfl | hlt
      · exact Bool.eq_false_iff.mpr hp
      · exact h4 j hlt hj2

theorem scanFwd_none (p : Nat → Bool) :
    ∀ fuel lo, scanFwd p lo fuel = none →
      ∀ i, lo ≤ i → i < lo + fuel → p i = false := by
  intro fuel
  induction fuel with
  | zero => intro lo _ i h1 h2; omega
  | succ n ih =>
    intro lo h i h1 h2
    rw [scanFwd] at h
    by_cases hp : p lo = true
    · rw [if_pos hp] at h; exact absurd h (by simp)
    · rw [if_neg hp] at h
      rcases Nat.eq_or_lt_of_le h1 with rfl | hlt
      · exact Bool.eq_false_iff.mpr hp
      · exact ih (lo + 1) h i hlt (by omega)

theorem scanRev_some (p : Nat → Bool) :
    ∀ fuel lo i, scanRev p lo fuel = some i →
      lo ≤ i ∧ i < lo + fuel ∧ p i = true ∧
        ∀ j, i < j → j < lo + fuel → p j = false := by
  intro fuel
  induction fuel with
  | zero => intro lo i h; simp [scanRev] at h
  | succ n ih =>
    intro lo i h
    rw [scanRev] at h
    by_cases hp : p (lo + n) = true
    · rw [if_pos hp] at h
      obtain rfl : lo + n = i := by simpa using h
      exact ⟨by omega, by omega, hp, fun j h1 h2 => by omega⟩
    · rw [if_neg hp] at h
      obtain ⟨h1, h2, h3, h4⟩ := ih lo i h
      refine ⟨h1, by omega, h3, fun j hj1 hj2 => ?_⟩
      by_cases hj : j = lo + n
      · subst hj; exact Bool.eq_false_iff.mpr hp
      · exact h4 j hj1 (by omega)

theorem scanRev_none (p : Nat → Bool) :
    ∀ fuel lo, scanRev p lo fuel = none →
      ∀ i, lo ≤ i → i < lo + fuel → p i = false := by
  intro fuel
  induction fuel with
  | zero => intro lo _ i h1 h2; omega
  | succ n ih =>
    intro lo h i h1 h2
    rw [scanRev] at h
    by_cases hp : p (lo + n) = true
    · rw [if_pos hp] at h; exact absurd h (by simp)
    · rw [if_neg hp] at h
      by_cases hi : i = lo + n
      · subst hi; exact Bool.eq_false_iff.mpr hp
      · exact ih lo h i h1 (by omega)

/-- C5: over a well-formed range with `Start ≤ End` in one block, the
decrement-or-check scan inspects exactly `(Start, End]`: a returned index is
the first one in that range at which `mayDecrementRefCount` or
`mayCheckRefCount` holds for `Op`, and `none` is returned exactly when no
index in the range satisfies either predicate. -/
theorem valueHasARCDecrementOrCheckInInstructionRange_spec (Op : Nat)
    (BB : List SILInstruction) (Start stop : Nat) (AA : AliasAnalysis)
    (hle : Start ≤ stop) :
    (∀ i, valueHasARCDecrementOrCheckInInstructionRange Op BB Start stop AA
        = some i →
      Start < i ∧ i ≤ stop ∧ instMayDecrementOrCheckAt Op BB AA i = true ∧
        ∀ j, Start < j → j < i → instMayDecrementOrCheckAt Op BB AA j = false) ∧
    (valueHasARCDecrementOrCheckInInstructionRange Op BB Start stop AA = none →
      ∀ i, Start < i → i ≤ stop → instMayDecrementOrCheckAt Op BB AA i = false) := by
  constructor
  · intro i h
    obtain ⟨h1, h2, h3, h4⟩ :=
      scanFwd_some (instMayDecrementOrCheckAt Op BB AA) (stop - Start)
        (Start + 1) i h
    exact ⟨by omega, by omega, h3, fun j hj1 hj2 => h4 j (by omega) hj2⟩
  · intro h i h1 h2
    exact scanFwd_none (instMayDecrementOrCheckAt Op BB AA) (stop - Start)
      (Start + 1) h i (by omega) (by omega)

/-- Witness for C5: on the block `[retain, release, branch]` with a
no-information oracle and range `(0, 2]`, the scan returns index 1 (the
release), whose characterization the theorem then yields. -/
theorem valueHasARCDecrementOrCheckInInstructionRange_spec_witness :
    1 ≤ 2 ∧
    (0 < 1 ∧ 1 ≤ 2 ∧
      instMayDecrementOrCheckAt 7
        [⟨InstKind.strongRetain, 7, [], none⟩,
         ⟨InstKind.strongRelease, 7, [], none⟩,
         ⟨InstKind.branch, 0, [], none⟩] ⟨fun _ _ => false⟩ 1 = true ∧
      ∀ j, 0 < j → j < 1 →
        instMayDecrementOrCheckAt 7
          [⟨InstKind.strongRetain, 7, [], none⟩,
           ⟨InstKind.strongRelease, 7, [], none⟩,
           ⟨InstKind.branch, 0, [], none⟩] ⟨fun _ _ => false⟩ j = false) :=
  ⟨by decide,
   (valueHasARCDecrementOrCheckInInstructionRange_spec 7
      [⟨InstKind.strongRetain, 7, [], none⟩,
       ⟨InstKind.strongRelease, 7, [], none⟩,
       ⟨InstKind.branch, 0, [], none⟩] 0 2 ⟨fun _ _ => false⟩
      (by decide)).1 1 (by decide)⟩

/-- C6: on a block `[I0, I1, I2]` in which only `I1` may use the target
value, the forward use scan over `[I0, I2)` returns index 1, the reverse use
scan over the same range returns index 1, and both scans over the empty
range `[I2, I2)` return `none`. -/
theorem arc_use_range_scan_correct (Op : Nat) (I0 I1 I2 : SILInstruction)
    (AA : AliasAnalysis)
    (h0 : mayUseValue I0 Op AA = false)
    (h1 : mayUseValue I1 Op AA = true)
    (h2 : mayUseValue I2 Op AA = false) :
    valueHasARCUsesInInstructionRange Op [I0, I1, I2] 0 2 AA = some 1 ∧
    valueHasARCUsesInReverseInstructionRange Op [I0, I1, I2] 0 2 AA = some 1 ∧
    valueHasARCUsesInInstructionRange Op [I0, I1, I2] 2 2 AA = none ∧
    valueHasARCUsesInReverseInstructionRange Op [I0, I1, I2] 2 2 AA = none := by
  refine ⟨?_, ?_, ?_, ?_⟩
  · simp [valueHasARCUsesInInstructionRange, scanFwd, instMayUseAt,
      List.get?, h0, h1]
  · simp [valueHasARCUsesInReverseInstructionRange, scanRev, instMayUseAt,
      List.get?, h1]
  · simp [valueHasARCUsesInInstructionRange, scanFwd]
  · simp [valueHasARCUsesInReverseInstructionRange, scanRev]

/-- Witness for C6: a trap instruction, an opaque call, and a branch, under
a no-information oracle; only the call may use value 3. -/
theorem arc_use_range_scan_correct_witness :
    valueHasARCUsesInInstructionRange 3
      [⟨InstKind.condFail, 0, [], none⟩, ⟨InstKind.apply, 1, [], none⟩,
       ⟨InstKind.branch, 0, [], none⟩] 0 2 ⟨fun _ _ => false⟩ = some 1 ∧
    valueHasARCUsesInReverseInstructionRange 3
      [⟨InstKind.condFail, 0, [], none⟩, ⟨InstKind.apply, 1, [], none⟩,
       ⟨InstKind.branch, 0, [], none⟩] 0 2 ⟨fun _ _ => false⟩ = some 1 ∧
    valueHasARCUsesInInstructionRange 3
      [⟨InstKind.condFail, 0, [], none⟩, ⟨InstKind.apply, 1, [], none⟩,
       ⟨InstKind.branch, 0, [], none⟩] 2 2 ⟨fun _ _ => false⟩ = none ∧
    valueHasARCUsesInReverseInstructionRange 3
      [⟨InstKind.condFail, 0, [], none⟩, ⟨InstKind.apply, 1, [], none⟩,
       ⟨InstKind.branch, 0, [], none⟩] 2 2 ⟨fun _ _ => false⟩ = none :=
  arc_use_range_scan_correct 3 ⟨InstKind.condFail, 0, [], none⟩
    ⟨InstKind.apply, 1, [], none⟩ ⟨InstKind.branch, 0, [], none⟩
    ⟨fun _ _ => false⟩ (by decide) (by decide) (by decide)

/-- C9: `recompute()` discards and rebuilds all state, so calling it twice
in a row on the same unmutated function yields identical matched result
sets: the epilogue retain list of `ConsumedResultToEpilogueRetainMatcher`
and the argument-to-release map of `ConsumedArgToEpilogueReleaseMatcher`
agree after the first and after the second `recompute()`. -/
theorem recompute_idempotent (F : SILFunction) (AA : AliasAnalysis)
    (Kind : ExitKind) (mR : ConsumedResultToEpilogueRetainMatcher)
    (mA : ConsumedArgToEpilogueReleaseMatcher) :
    (ConsumedResultToEpilogueRetainMatcher.recompute F AA
        (ConsumedResultToEpilogueRetainMatcher.recompute F AA
          mR)).getEpilogueRetains =
      (ConsumedResultToEpilogueRetainMatcher.recompute F AA
        mR).getEpilogueRetains ∧
    (ConsumedArgToEpilogueReleaseMatcher.recompute F Kind
        (ConsumedArgToEpilogueReleaseMatcher.recompute F Kind
          mA)).ArgInstMap =
      (ConsumedArgToEpilogueReleaseMatcher.recompute F Kind mA).ArgInstMap :=
  ⟨rfl, rfl⟩

/-- C4: `getSingleReleaseForArgument` returns the unique matched release
when the argument's entry holds exactly one release, the null sentinel when
the argument has no entry, the null sentinel when the entry holds more than
one release, and — through the `SILValue` overload — the null sentinel for
every value that is not a function argument. -/
theorem getSingleReleaseForArgument_spec
    (m : ConsumedArgToEpilogueReleaseMatcher) (Arg : SILArgument)
    (V : SILValue) :
    (∀ R, lookupArg m.ArgInstMap Arg = some [R] →
      m.getSingleReleaseForArgument Arg = some R) ∧
    (lookupArg m.ArgInstMap Arg = none →
      m.getSingleReleaseForArgument Arg = none) ∧
    (∀ l, lookupArg m.ArgInstMap Arg = some l → 1 < l.length →
      m.getSingleReleaseForArgument Arg = none) ∧
    (V.asArgument = none → m.getSingleReleaseForArgumentValue V = none) := by
  refine ⟨?_, ?_, ?_, ?_⟩
  · intro R h
    simp [ConsumedArgToEpilogueReleaseMatcher.getSingleReleaseForArgument, h]
  · intro h
    simp [ConsumedArgToEpilogueReleaseMatcher.getSingleReleaseForArgument, h]
  · intro l h hlen
    simp only
      [ConsumedArgToEpilogueReleaseMatcher.getSingleReleaseForArgument, h]
    rw [if_neg (by omega)]
  · intro h
    simp [ConsumedArgToEpilogueReleaseMatcher.getSingleReleaseForArgumentValue,
      h]

/-- Witness for C4: a one-entry map whose single release is returned, an
argument absent from it, a two-release entry, and a non-argument value. -/
theorem getSingleReleaseForArgument_spec_witness :
    ConsumedArgToEpilogueReleaseMatcher.getSingleReleaseForArgument
      ⟨[(⟨0, [0]⟩, [⟨InstKind.strongRelease, 4, [0], some 0⟩])], false⟩
      ⟨0, [0]⟩ = some ⟨InstKind.strongRelease, 4, [0], some 0⟩ ∧
    ConsumedArgToEpilogueReleaseMatcher.getSingleReleaseForArgument
      ⟨[], false⟩ ⟨1, []⟩ = none ∧
    ConsumedArgToEpilogueReleaseMatcher.getSingleReleaseForArgument
      ⟨[(⟨2, [0]⟩, [⟨InstKind.strongRelease, 4, [0], some 2⟩,
                    ⟨InstKind.releaseValue, 5, [1], some 2⟩])], false⟩
      ⟨2, [0]⟩ = none ∧
    ConsumedArgToEpilogueReleaseMatcher.getSingleReleaseForArgumentValue
      ⟨[], false⟩ (SILValue.other 3) = none :=
  ⟨(getSingleReleaseForArgument_spec
      ⟨[(⟨0, [0]⟩, [⟨InstKind.strongRelease, 4, [0], some 0⟩])], false⟩
      ⟨0, [0]⟩ (SILValue.other 3)).1
      ⟨InstKind.strongRelease, 4, [0], some 0⟩ (by decide),
   (getSingleReleaseForArgument_spec ⟨[], false⟩ ⟨1, []⟩
      (SILValue.other 3)).2.1 (by decide),
   (getSingleReleaseForArgument_spec
      ⟨[(⟨2, [0]⟩, [⟨InstKind.strongRelease, 4, [0], some 2⟩,
                    ⟨InstKind.releaseValue, 5, [1], some 2⟩])], false⟩
      ⟨2, [0]⟩ (SILValue.other 3)).2.2.1
      [⟨InstKind.strongRelease, 4, [0], some 2⟩,
       ⟨InstKind.releaseValue, 5, [1], some 2⟩] (by decide) (by decide),
   (getSingleReleaseForArgument_spec ⟨[], false⟩ ⟨1, []⟩
      (SILValue.other 3)).2.2.2 (by decide)⟩

/-- Counterexample for C3: `isSingleRelease` queried on an argument with no
recorded release list does not return a boolean.  The source asserts
`Iter != ArgInstMap.end() && "Failed to get release list for argument"` and
then reads through the iterator, so for an absent argument it aborts in
debug builds (dereferences an end iterator in release builds) instead of
returning a value; the embedding renders that outcome as `none`. -/
theorem isSingleRelease_absent_argument_cex :
    ConsumedArgToEpilogueReleaseMatcher.isSingleRelease ⟨[], false⟩
      ⟨0, []⟩ = none := rfl

/-- C3 (amended): `isSingleRelease(Arg)` returns a definite boolean —
whether the entry holds exactly one release — for every argument that has
an entry in the matcher's map; an argument with no entry violates the
function's asserted precondition instead of getting a sentinel. -/
theorem isSingleRelease_present_spec
    (m : ConsumedArgToEpilogueReleaseMatcher) (Arg : SILArgument)
    (l : ReleaseList) (h : lookupArg m.ArgInstMap Arg = some l) :
    ConsumedArgToEpilogueReleaseMatcher.isSingleRelease m Arg =
      some (decide (l.length = 1)) := by
  simp [ConsumedArgToEpilogueReleaseMatcher.isSingleRelease, h]

/-- Witness for the amended C3: a matcher with a single-release entry, for
which `isSingleRelease` returns `true`. -/
theorem isSingleRelease_present_spec_witness :
    ConsumedArgToEpilogueReleaseMatcher.isSingleRelease
      ⟨[(⟨0, [0]⟩, [⟨InstKind.strongRelease, 4, [0], some 0⟩])], false⟩
      ⟨0, [0]⟩ = some true :=
  isSingleRelease_present_spec
    ⟨[(⟨0, [0]⟩, [⟨InstKind.strongRelease, 4, [0], some 0⟩])], false⟩
    ⟨0, [0]⟩ [⟨InstKind.strongRelease, 4, [0], some 0⟩] (by decide)

/-- `mayDecrementRefCount` can only hold for instructions off the
decrement-free allowlist. -/
theorem canNeverDecrement_false_of_mayDecrement (Inst : SILInstruction)
    (Ptr : Nat) (AA : AliasAnalysis)
    (h : mayDecrementRefCount Inst Ptr AA = true) :
    canNeverDecrementRefCounts Inst = false := by
  cases hk : Inst.kind <;>
    simp [mayDecrementRefCount, hk] at h ⊢ <;>
    simp [canNeverDecrementRefCounts, hk]

/-- C8: `isARCInertTrapBB` holds exactly when the block consists of a
trap/unreachable-style terminator together with instructions each
satisfying both `canNeverUseValues` and `canNeverDecrementRefCounts`; and
appending to such a block one instruction that may decrement a reference
count (for some value and oracle) falsifies the predicate. -/
theorem isARCInertTrapBB_spec (BB : SILBasicBlock) :
    (isARCInertTrapBB BB = true ↔
      (isTrapTerminator BB.terminator = true ∧
        ∀ I ∈ BB.insts, canNeverUseValues I = true ∧
          canNeverDecrementRefCounts I = true)) ∧
    (∀ J Ptr AA, mayDecrementRefCount J Ptr AA = true →
      isARCInertTrapBB ⟨BB.insts ++ [J], BB.terminator⟩ = false) := by
  constructor
  · simp [isARCInertTrapBB, List.all_eq_true]
  · intro J Ptr AA h
    have hJ : canNeverDecrementRefCounts J = false :=
      canNeverDecrement_false_of_mayDecrement J Ptr AA h
    have hfJ : (canNeverUseValues J && canNeverDecrementRefCounts J) = false := by
      simp [hJ]
    simp [isARCInertTrapBB, List.all_append, hfJ]

/-- Witness for C8: a block holding one `cond_fail` under an `unreachable`
terminator is ARC-inert, and appending an opaque call (which may decrement
value 0 under any oracle) falsifies the predicate. -/
theorem isARCInertTrapBB_spec_witness :
    isARCInertTrapBB
      ⟨[⟨InstKind.condFail, 0, [], none⟩],
        ⟨InstKind.unreachable, 0, [], none⟩⟩ = true ∧
    isARCInertTrapBB
      ⟨[⟨InstKind.condFail, 0, [], none⟩] ++ [⟨InstKind.apply, 1, [], none⟩],
        ⟨InstKind.unreachable, 0, [], none⟩⟩ = false :=
  ⟨(isARCInertTrapBB_spec
      ⟨[⟨InstKind.condFail, 0, [], none⟩],
        ⟨InstKind.unreachable, 0, [], none⟩⟩).1.mpr (by decide),
   (isARCInertTrapBB_spec
      ⟨[⟨InstKind.condFail, 0, [], none⟩],
        ⟨InstKind.unreachable, 0, [], none⟩⟩).2
      ⟨InstKind.apply, 1, [], none⟩ 0 ⟨fun _ _ => false⟩ (by decide)⟩

/-- Entries surviving coverage validation cover every leaf of their
argument. -/
theorem releaseArgument_of_mem_process (X : ArgInstMapT) (a : SILArgument)
    (l : ReleaseList) (h : (a, l) ∈ processMatchingReleases X) :
    releaseArgument l a = true := by
  have hm := List.mem_filter.mp h
  simpa using hm.2

/-- C2: in every matcher state reachable through the public operations,
each argument's entry covers every reference-counted leaf of the argument's
type — there is no partial entry; in particular, for an argument with two
reference-counted leaves and a function releasing only one of them, the
matcher yields an absent entry for that argument. -/
theorem epilogue_release_all_or_nothing :
    (∀ (F : SILFunction) (Kind : ExitKind)
        (m : ConsumedArgToEpilogueReleaseMatcher) (a : SILArgument)
        (l : ReleaseList),
      ReachableMatcher F Kind m → (a, l) ∈ m.ArgInstMap →
        releaseArgument l a = true) ∧
    lookupArg (ConsumedArgToEpilogueReleaseMatcher.construct
        ⟨[⟨0, [0, 1]⟩], [⟨InstKind.strongRelease, 5, [0], some 0⟩], [], 9⟩
        ExitKind.Return).ArgInstMap ⟨0, [0, 1]⟩ = none := by
  constructor
  · intro F Kind m a l hr hm
    cases hr with
    | construct => exact releaseArgument_of_mem_process _ a l hm
    | find BB m0 h => exact releaseArgument_of_mem_process _ a l hm
    | recompute m0 h => exact releaseArgument_of_mem_process _ a l hm
  · decide

/-- Witness for C2: a single-leaf argument fully released in the return
block is a reachable state with a present entry, whose coverage the theorem
yields. -/
theorem epilogue_release_all_or_nothing_witness :
    releaseArgument [⟨InstKind.strongRelease, 5, [0], some 0⟩]
      ⟨0, [0]⟩ = true :=
  epilogue_release_all_or_nothing.1
    ⟨[⟨0, [0]⟩], [⟨InstKind.strongRelease, 5, [0], some 0⟩], [], 9⟩
    ExitKind.Return
    (ConsumedArgToEpilogueReleaseMatcher.construct
      ⟨[⟨0, [0]⟩], [⟨InstKind.strongRelease, 5, [0], some 0⟩], [], 9⟩
      ExitKind.Return)
    ⟨0, [0]⟩ [⟨InstKind.strongRelease, 5, [0], some 0⟩]
    ReachableMatcher.construct (by decide)

/-- `addRelease` keeps every stored release list non-empty. -/
theorem allEntriesNonEmpty_addRelease (m : ArgInstMapT) (a : SILArgument)
    (i : SILInstruction) (h : allEntriesNonEmpty m) :
    allEntriesNonEmpty (addRelease m a i) := by
  induction m with
  | nil =>
    intro e he
    rw [addRelease, List.mem_singleton] at he
    subst he
    simp
  | cons hd rest ih =>
    obtain ⟨b, l⟩ := hd
    intro e he
    rw [addRelease] at he
    by_cases hba : b = a
    · rw [if_pos hba] at he
      rcases List.mem_cons.mp he with rfl | hrest
      · simp
      · exact h e (List.mem_cons_of_mem _ hrest)
    · rw [if_neg hba] at he
      rcases List.mem_cons.mp he with rfl | hrest
      · exact h (b, l) (List.mem_cons_self _ _)
      · exact ih (fun x hx => h x (List.mem_cons_of_mem _ hx)) e hrest

/-- One collection step keeps every stored release list non-empty. -/
theorem allEntriesNonEmpty_collectStep (args : List SILArgument)
    (m : ArgInstMapT) (I : SILInstruction) (h : allEntriesNonEmpty m) :
    allEntriesNonEmpty (collectReleaseStep args m I) := by
  unfold collectReleaseStep
  by_cases hrel : isReleaseInstruction I = true
  · rw [if_pos hrel]
    cases htr : trackedArgFor args I with
    | none => exact h
    | some a =>
      by_cases hred : isRedundantRelease ((lookupArg m a).getD []) I = true
      · simp [hred]; exact h
      · simp [hred]
        exact allEntriesNonEmpty_addRelease m a I h
  · rw [if_neg hrel]; exact h

/-- Collection keeps every stored release list non-empty. -/
theorem allEntriesNonEmpty_collect (args : List SILArgument)
    (BB : List SILInstruction) :
    ∀ m, allEntriesNonEmpty m →
      allEntriesNonEmpty (collectMatchingReleases args BB m) := by
  induction BB with
  | nil => intro m h; exact h
  | cons I rest ih =>
    intro m h
    exact ih _ (allEntriesNonEmpty_collectStep args m I h)

/-- Coverage validation keeps every stored release list non-empty. -/
theorem allEntriesNonEmpty_process (m : ArgInstMapT)
    (h : allEntriesNonEmpty m) :
    allEntriesNonEmpty (processMatchingReleases m) := by
  intro e he
  exact h e (List.mem_filter.mp he).1

/-- Every reachable matcher state stores only non-empty release lists. -/
theorem reachable_allEntriesNonEmpty (F : SILFunction) (Kind : ExitKind)
    (m : ConsumedArgToEpilogueReleaseMatcher)
    (h : ReachableMatcher F Kind m) : allEntriesNonEmpty m.ArgInstMap := by
  induction h with
  | construct =>
    exact allEntriesNonEmpty_process _
      (allEntriesNonEmpty_collect _ _ _ (by intro e he; simp at he))
  | find BB m0 h ih =>
    exact allEntriesNonEmpty_process _ (allEntriesNonEmpty_collect _ _ _ ih)
  | recompute m0 h ih =>
    exact allEntriesNonEmpty_process _
      (allEntriesNonEmpty_collect _ _ _ (by intro e he; simp at he))

/-- The per-entry predicate of `isSingleReleaseMatchedToArgument` returns a
definite boolean on every non-empty release list. -/
theorem singleReleaseEntryPred_isSome (Inst : SILInstruction)
    (e : SILArgument × ReleaseList) (h : e.2 ≠ []) :
    (ConsumedArgToEpilogueReleaseMatcher.singleReleaseEntryPred
      Inst e).isSome = true := by
  unfold ConsumedArgToEpilogueReleaseMatcher.singleReleaseEntryPred
  by_cases hlen : e.2.length > 1
  · simp [hlen]
  · rw [if_neg hlen]
    cases hl : e.2 with
    | nil => exact absurd hl h
    | cons x rest => simp [hl]

/-- `mapOption` succeeds on a list on which the function always
succeeds. -/
theorem mapOption_isSome (f : α → Option β) :
    ∀ l : List α, (∀ a ∈ l, (f a).isSome = true) →
      (mapOption f l).isSome = true := by
  intro l
  induction l with
  | nil => intro _; simp [mapOption]
  | cons a rest ih =>
    intro h
    rw [mapOption]
    obtain ⟨b, hb⟩ := Option.isSome_iff_exists.mp (h a (List.mem_cons_self _ _))
    obtain ⟨bs, hbs⟩ := Option.isSome_iff_exists.mp
      (ih (fun x hx => h x (List.mem_cons_of_mem _ hx)))
    rw [hb, hbs]
    simp

/-- C10: in every matcher state reachable through the public operations,
every stored release list is non-empty, so
`isSingleReleaseMatchedToArgument` — which dereferences the first element
of each stored list of size at most one — returns a definite boolean and
never dereferences past the end of an empty list. -/
theorem isSingleReleaseMatchedToArgument_no_empty_deref (F : SILFunction)
    (Kind : ExitKind) (m : ConsumedArgToEpilogueReleaseMatcher)
    (Inst : SILInstruction) (h : ReachableMatcher F Kind m) :
    (ConsumedArgToEpilogueReleaseMatcher.isSingleReleaseMatchedToArgument
      m Inst).isSome = true := by
  have hne := reachable_allEntriesNonEmpty F Kind m h
  unfold ConsumedArgToEpilogueReleaseMatcher.isSingleReleaseMatchedToArgument
  obtain ⟨bs, hbs⟩ := Option.isSome_iff_exists.mp
    (mapOption_isSome _ m.ArgInstMap (fun e he =>
      singleReleaseEntryPred_isSome Inst e (hne e he)))
  rw [hbs]
  simp

/-- Witness for C10 at the constructed matcher of a one-argument function:
the query returns a definite boolean. -/
theorem isSingleReleaseMatchedToArgument_no_empty_deref_witness :
    (ConsumedArgToEpilogueReleaseMatcher.isSingleReleaseMatchedToArgument
      (ConsumedArgToEpilogueReleaseMatcher.construct
        ⟨[⟨0, [0]⟩], [⟨InstKind.strongRelease, 5, [0], some 0⟩], [], 9⟩
        ExitKind.Return)
      ⟨InstKind.strongRelease, 5, [0], some 0⟩).isSome = true :=
  isSingleReleaseMatchedToArgument_no_empty_deref
    ⟨[⟨0, [0]⟩], [⟨InstKind.strongRelease, 5, [0], some 0⟩], [], 9⟩
    ExitKind.Return
    (ConsumedArgToEpilogueReleaseMatcher.construct
      ⟨[⟨0, [0]⟩], [⟨InstKind.strongRelease, 5, [0], some 0⟩], [], 9⟩
      ExitKind.Return)
    ⟨InstKind.strongRelease, 5, [0], some 0⟩
    ReachableMatcher.construct

/-- Tracking users does not alter the final release set. -/
theorem foldl_trackUser_FinalReleases (users : List SILInstruction) :
    ∀ T : ReleaseTracker,
      (users.foldl ReleaseTracker.trackUser T).FinalReleases =
        T.FinalReleases := by
  induction users with
  | nil => intro T; rfl
  | cons u rest ih => intro T; rw [List.foldl_cons, ih]; rfl

/-- Tracking last releases accumulates exactly those instructions into the
final release set. -/
theorem foldl_trackLastRelease_FinalReleases (finals : List SILInstruction) :
    ∀ T : ReleaseTracker,
      (finals.foldl ReleaseTracker.trackLastRelease T).FinalReleases =
        finals.foldl insertUnique T.FinalReleases := by
  induction finals with
  | nil => intro T; rfl
  | cons f rest ih => intro T; rw [List.foldl_cons, List.foldl_cons, ih]; rfl

/-- Every element produced by a successful `mapOption` comes from some
element of the input list. -/
theorem mapOption_mem_of_some (f : α → Option β) :
    ∀ (l : List α) (bs : List β), mapOption f l = some bs →
      ∀ b ∈ bs, ∃ a ∈ l, f a = some b := by
  intro l
  induction l with
  | nil =>
    intro bs h b hb
    rw [mapOption] at h
    obtain rfl : ([] : List β) = bs := by simpa using h
    simp at hb
  | cons a rest ih =>
    intro bs h b hb
    rw [mapOption] at h
    cases hfa : f a with
    | none => rw [hfa] at h; simp at h
    | some b0 =>
      cases hrest : mapOption f rest with
      | none => rw [hfa, hrest] at h; simp at h
      | some bs0 =>
        rw [hfa, hrest] at h
        obtain rfl : b0 :: bs0 = bs := by simpa using h
        rcases List.mem_cons.mp hb with rfl | hb0
        · exact ⟨a, List.mem_cons_self _ _, hfa⟩
        · obtain ⟨a0, ha0, hfa0⟩ := ih bs0 hrest b hb0
          exact ⟨a0, List.mem_cons_of_mem _ ha0, hfa0⟩

/-- The last release found on a path is a release of the searched value. -/
theorem lastReleaseOnPath_is_release (V : Nat) (p : List SILInstruction)
    (I : SILInstruction) (h : lastReleaseOnPath V p = some I) :
    isReleaseInstruction I = true ∧ I.root = some V := by
  unfold lastReleaseOnPath at h
  obtain ⟨hne, heq⟩ := List.mem_getLast?_eq_getLast h
  have hmem : I ∈ p.filter
      (fun J => isReleaseInstruction J && J.root == some V) := by
    rw [heq]; exact List.getLast_mem hne
  have hp := (List.mem_filter.mp hmem).2
  simp at hp
  exact hp

/-- C7: `getFinalReleasesForValue` returns false whenever no valid
post-dominating final release set exists for the value — in particular when
some definition-to-exit path reaches an unacceptable user, when some path
has no release, or when no consistent post-dominance relation holds — and
returns true only when such a set exists and has been placed in the
tracker's final release set. -/
theorem getFinalReleasesForValue_spec (V : Nat) (vp : ValuePaths)
    (Tracker : ReleaseTracker) :
    ((getFinalReleasesForValue V vp Tracker).1 = true →
      ∃ S, validFinalReleaseSet V vp Tracker S ∧
        (getFinalReleasesForValue V vp Tracker).2.FinalReleases =
          S.foldl insertUnique Tracker.FinalReleases) ∧
    ((¬ ∃ S, validFinalReleaseSet V vp Tracker S) →
      (getFinalReleasesForValue V vp Tracker).1 = false) := by
  have main : (getFinalReleasesForValue V vp Tracker).1 = true →
      ∃ S, validFinalReleaseSet V vp Tracker S ∧
        (getFinalReleasesForValue V vp Tracker).2.FinalReleases =
          S.foldl insertUnique Tracker.FinalReleases := by
    intro h
    by_cases hacc : (vp.paths.flatten.filter (usesValue V)).all
        (fun U => Tracker.isUserAcceptable U) = true
    · cases hmo : mapOption (lastReleaseOnPath V) vp.paths with
      | none =>
        rw [getFinalReleasesForValue, if_pos hacc, hmo] at h
        simp at h
      | some finals =>
        by_cases hone : vp.paths.all
            (fun p => (p.filter (fun I => finals.contains I)).length = 1)
              = true
        · refine ⟨finals, ⟨?_, ?_, ?_⟩, ?_⟩
          · intro U hU hUuse
            have := List.all_eq_true.mp hacc U
              (List.mem_filter.mpr ⟨hU, hUuse⟩)
            simpa using this
          · intro I hI
            obtain ⟨p, hp, hlast⟩ :=
              mapOption_mem_of_some (lastReleaseOnPath V) vp.paths finals
                hmo I hI
            exact lastReleaseOnPath_is_release V p I hlast
          · intro p hp
            have := List.all_eq_true.mp hone p hp
            simpa using this
          · rw [getFinalReleasesForValue, if_pos hacc, hmo]
            simp only [hone, if_pos]
            rw [foldl_trackLastRelease_FinalReleases,
              foldl_trackUser_FinalReleases]
        · rw [getFinalReleasesForValue, if_pos hacc, hmo] at h
          rw [Bool.not_eq_true] at hone
          simp only [hone] at h
          simp at h
    · rw [getFinalReleasesForValue, if_neg hacc] at h
      simp at h
  refine ⟨main, fun hno => ?_⟩
  cases hres : (getFinalReleasesForValue V vp Tracker).1 with
  | false => rfl
  | true =>
    obtain ⟨S, hS, _⟩ := main hres
    exact absurd ⟨S, hS⟩ hno

/-- Witness for C7: one straight-line path that retains and then releases
value 2, with every user acceptable; the collector succeeds and its tracked
final release set is exactly the path's release, which the theorem
certifies as a valid post-dominating set. -/
theorem getFinalReleasesForValue_spec_witness :
    ∃ S, validFinalReleaseSet 2
        ⟨[[⟨InstKind.strongRetain, 2, [], some 2⟩,
           ⟨InstKind.strongRelease, 2, [], some 2⟩]]⟩
        (ReleaseTracker.construct (fun _ => true)) S ∧
      (getFinalReleasesForValue 2
        ⟨[[⟨InstKind.strongRetain, 2, [], some 2⟩,
           ⟨InstKind.strongRelease, 2, [], some 2⟩]]⟩
        (ReleaseTracker.construct (fun _ => true))).2.FinalReleases =
        S.foldl insertUnique
          (ReleaseTracker.construct (fun _ => true)).FinalReleases :=
  (getFinalReleasesForValue_spec 2
    ⟨[[⟨InstKind.strongRetain, 2, [], some 2⟩,
       ⟨InstKind.strongRelease, 2, [], some 2⟩]]⟩
    (ReleaseTracker.construct (fun _ => true))).1 (by decide)
